import Mathlib

/-! # Cashflow Monte Carlo simulation and risk scoring engine

Shallow embedding of the cashflow simulation service of the financial
twin API (cashflow_service.py), together with the feature extraction
of the model service (loan_risk_model_service.py) and the
recommendation logic of the risk assessment service
(risk_assessment_service.py).

Modelling conventions:
* floating point numbers are modelled by rationals;
* the seeded numpy random source is modelled by an explicit
  deterministic function of the seed, of the position in the stream of
  draws made since seeding, and of the requested distribution --
  exactly the reproducibility contract of np.random.seed;
* Python dictionary lookups that can raise KeyError are modelled with
  Option (a missing key is none) and Except (a raised error);
* the date string of a future income entry is modelled as
  Option Date, where none stands for a string that strptime rejects;
* fields of the extracted feature dictionary that no verified claim
  mentions and whose computation cannot raise (the np.std based
  income volatility, the seasonal maximum, the household ratios and
  the categorical encodings) are omitted from the Features structure;
  the two categorical weight-table lookups, which are the only
  operations of extract_features that can raise, are modelled
  faithfully and in source order. -/

namespace FinancialTwin

/-- Request made to the random source: one draw from a uniform or from
a normal distribution with the given parameters. -/
inductive DrawReq where
  | uniform (low high : ℚ)
  | normal (mean std : ℚ)

/-- Deterministic model of the seeded numpy random source: the value
returned for the draw at position `c` of the stream obtained after
seeding with `seed`, for the request `req`.  Re-seeding with the same
seed reproduces the same stream. -/
abbrev RNG : Type := Nat → Nat → DrawReq → ℚ

/-- One income stream entry of the profile.  The reliability key may
be absent (none); the source reads it with a raising dict access. -/
structure IncomeStream where
  amount : ℚ
  reliability : Option String
  type : String
  growth_rate : ℚ
deriving DecidableEq

/-- One expense category entry of the profile. -/
structure Expense where
  category : String
  monthly_baseline : ℚ
  volatility : ℚ
  seasonal_multipliers : List (Nat × ℚ)
deriving DecidableEq

/-- One recurring obligation entry of the profile. -/
structure Obligation where
  monthly_amount : ℚ
  remaining_months : Nat
deriving DecidableEq

/-- One life event entry of the profile. -/
structure LifeEvent where
  start_month : Nat
  expense_impact : ℚ
deriving DecidableEq

/-- A calendar date as produced by datetime.strptime with format
Y-m-d; only the year and the month are read by the simulator. -/
structure Date where
  year : Int
  month : Int
deriving DecidableEq

/-- One future income entry.  expected_date is none when the date
string cannot be parsed; the confidence key may be absent (none). -/
structure FutureIncome where
  expected_date : Option Date
  expected_amount : ℚ
  confidence : Option String
deriving DecidableEq

/-- The financial profile handed to the simulator and to feature
extraction. -/
structure Profile where
  current_balance : ℚ
  income_streams : List IncomeStream
  expenses : List Expense
  obligations : List Obligation
  life_events : List LifeEvent
  future_incomes : List FutureIncome
  loan_amount : ℚ
  loan_interest_rate : ℚ
  loan_duration_months : Nat
deriving DecidableEq

/-- Monthly loan payment of the simulator (calculate_loan_payment):
annuity formula with monthly rate r = annual rate / 100 / 12, and the
closed form P / n when r is zero. -/
def calculate_loan_payment (p : Profile) : ℚ :=
  let P := p.loan_amount
  let r := p.loan_interest_rate / 100 / 12
  let n := p.loan_duration_months
  if r = 0 then P / (n : ℚ)
  else P * (r * (1 + r) ^ n) / ((1 + r) ^ n - 1)

/-- The reliability_factor table of simulate_single_trajectory; none
models the KeyError raised for a missing or unknown reliability. -/
def reliability_factor (r : Option String) : Option (ℚ × ℚ) :=
  match r with
  | none => none
  | some s =>
    if s = "high" then some (95 / 100, 105 / 100)
    else if s = "medium" then some (80 / 100, 115 / 100)
    else if s = "low" then some (60 / 100, 130 / 100)
    else none

/-- Income of one month: one uniform draw per stream, bounds given by
the reliability table; a missing or unknown reliability raises.  The
counter threads the position in the random stream. -/
def income_draws (rng : RNG) (seed : Nat) :
    List IncomeStream → Nat → Except String (ℚ × Nat)
  | [], c => .ok (0, c)
  | s :: rest, c =>
    match reliability_factor s.reliability with
    | none => .error "KeyError: income stream reliability"
    | some lh => do
      let v := s.amount * rng seed c (.uniform lh.1 lh.2)
      let (tail, c') ← income_draws rng seed rest (c + 1)
      .ok (v + tail, c')

/-- Calendar month of simulated month m: m mod 12, with 12 instead
of 0. -/
def calendar_month (m : Nat) : Nat :=
  if m % 12 = 0 then 12 else m % 12

/-- Seasonal multiplier lookup with default 1.0 (a missing mapping or
a missing month both default). -/
def seasonal_multiplier (sm : List (Nat × ℚ)) (cm : Nat) : ℚ :=
  match sm.find? (fun kv => kv.1 == cm) with
  | some kv => kv.2
  | none => 1

/-- Expenses of one month: one normal draw per expense category with
mean 1.0 and standard deviation the volatility of the entry, scaled by
the baseline and the seasonal multiplier. -/
def expense_draws (rng : RNG) (seed m : Nat) :
    List Expense → Nat → ℚ × Nat
  | [], c => (0, c)
  | e :: rest, c =>
    let sm := seasonal_multiplier e.seasonal_multipliers (calendar_month m)
    let vol := rng seed c (.normal 1 e.volatility)
    let v := e.monthly_baseline * sm * vol
    let (tail, c') := expense_draws rng seed m rest (c + 1)
    (v + tail, c')

/-- Recurring obligations of month m: sum of the monthly amounts of
the obligations whose remaining_months is at least m. -/
def obligations_for (obls : List Obligation) (m : Nat) : ℚ :=
  ((obls.filter (fun o => m ≤ o.remaining_months)).map
    (fun o => o.monthly_amount)).sum

/-- Life event expenses of month m: events whose start_month equals
the calendar month of m (events recur every twelve months). -/
def life_events_for (evs : List LifeEvent) (m : Nat) : ℚ :=
  ((evs.filter (fun e => calendar_month m == e.start_month)).map
    (fun e => e.expense_impact)).sum

/-- The conf_factor table of simulate_single_trajectory; none models
the KeyError raised inside the per-entry try block. -/
def conf_factor (r : Option String) : Option ℚ :=
  match r with
  | none => none
  | some s =>
    if s = "high" then some 1
    else if s = "medium" then some (8 / 10)
    else if s = "low" then some (6 / 10)
    else none

/-- Contribution of one future income entry to month m.  The whole
computation sits in a per-entry try/except in the source: an
unparsable date or a bad confidence key makes the entry contribute
zero (with a logged warning) instead of raising. -/
def future_income_contrib (fi : FutureIncome) (m : Nat) : ℚ :=
  match fi.expected_date with
  | none => 0
  | some d =>
    let months_until : Int := (d.year - 2026) * 12 + d.month - 1
    if (m : Int) = months_until then
      match conf_factor fi.confidence with
      | none => 0
      | some cf => fi.expected_amount * cf
    else 0

/-- Future income of month m: sum over all entries. -/
def future_incomes_for (fis : List FutureIncome) (m : Nat) : ℚ :=
  (fis.map (fun fi => future_income_contrib fi m)).sum

/-- Net cashflow of simulated month m (the body of the month loop of
simulate_single_trajectory); also returns the advanced draw counter. -/
def month_net (p : Profile) (rng : RNG) (seed m c : Nat) :
    Except String (ℚ × Nat) := do
  let (income, c₁) ← income_draws rng seed p.income_streams c
  let (expenses, c₂) := expense_draws rng seed m p.expenses c₁
  let obligations := obligations_for p.obligations m
  let event_expense := life_events_for p.life_events m
  let loan_pmt : ℚ :=
    if m ≤ p.loan_duration_months then calculate_loan_payment p else 0
  let future_income := future_incomes_for p.future_incomes m
  .ok (income + future_income - expenses - obligations - loan_pmt
        - event_expense, c₂)

/-- Balances of months m, m+1, ... for the given fuel, starting from
balance b with draw counter c. -/
def simulate_months (p : Profile) (rng : RNG) (seed : Nat) :
    ℚ → Nat → Nat → Nat → Except String (List ℚ)
  | _, _, _, 0 => .ok []
  | b, m, c, Nat.succ k => do
    let (net, c') ← month_net p rng seed m c
    let b' := b + net
    let rest ← simulate_months p rng seed b' (m + 1) c' k
    .ok (b' :: rest)

/-- One stochastic balance trajectory (simulate_single_trajectory):
index 0 holds the current balance, then one entry per simulated
month 1..horizon. -/
def simulate_single_trajectory (p : Profile) (rng : RNG)
    (horizon seed : Nat) : Except String (List ℚ) := do
  let rest ← simulate_months p rng seed p.current_balance 1 0 horizon
  .ok (p.current_balance :: rest)

/-- Linear interpolation at fractional index h into the sorted list s
(the numpy percentile interpolation step). -/
def interp_at (s : List ℚ) (h : ℚ) : ℚ :=
  s.getD ⌊h⌋₊ 0 + (h - (⌊h⌋₊ : ℚ)) * (s.getD ⌈h⌉₊ 0 - s.getD ⌊h⌋₊ 0)

/-- Linear-interpolation percentile of numpy: sort, then interpolate
at index q * (len - 1) / 100. -/
def percentile (xs : List ℚ) (q : ℚ) : ℚ :=
  interp_at (xs.insertionSort (· ≤ ·)) (q * ((xs.length : ℚ) - 1) / 100)

/-- Column m of the trajectory matrix: the balance of every trajectory
at month m. -/
def column (trajs : List (List ℚ)) (m : Nat) : List ℚ :=
  trajs.map (fun tr => tr.getD m 0)

/-- Arithmetic mean of a list of rationals. -/
def mean_list (xs : List ℚ) : ℚ :=
  xs.sum / (xs.length : ℚ)

/-- Result of run_monte_carlo: the trajectory matrix and the per-month
aggregate series. -/
structure MCResult where
  trajectories : List (List ℚ)
  p10 : List ℚ
  p50 : List ℚ
  p90 : List ℚ
  mean : List ℚ
deriving DecidableEq

/-- Trajectories for seeds i, i+1, ... (count many): the loop of
run_monte_carlo, which always passes the simulation index as seed. -/
def collect_trajectories (p : Profile) (rng : RNG) (horizon : Nat) :
    Nat → Nat → Except String (List (List ℚ))
  | _, 0 => .ok []
  | i, Nat.succ k => do
    let t ← simulate_single_trajectory p rng horizon i
    let rest ← collect_trajectories p rng horizon (i + 1) k
    .ok (t :: rest)

/-- Monte Carlo engine (run_monte_carlo): n trajectories with seeds
0..n-1, then per-month p10, p50, p90 and mean across the ensemble. -/
def run_monte_carlo (p : Profile) (rng : RNG) (n horizon : Nat) :
    Except String MCResult := do
  let trajs ← collect_trajectories p rng horizon 0 n
  .ok {
    trajectories := trajs
    p10 := (List.range (horizon + 1)).map
      (fun m => percentile (column trajs m) 10)
    p50 := (List.range (horizon + 1)).map
      (fun m => percentile (column trajs m) 50)
    p90 := (List.range (horizon + 1)).map
      (fun m => percentile (column trajs m) 90)
    mean := (List.range (horizon + 1)).map
      (fun m => mean_list (column trajs m)) }

/-- Fraction of the n trajectories whose balance at month m is
strictly below the threshold (np.mean over the boolean column). -/
def stress_fraction (trajs : List (List ℚ)) (m : Nat) (threshold : ℚ)
    (n : Nat) : ℚ :=
  ((trajs.countP (fun tr => tr.getD m 0 < threshold) : ℚ)) / (n : ℚ)

/-- Stress probability series (calculate_stress_probability): one
fresh Monte Carlo run, then the below-threshold fraction per month. -/
def calculate_stress_probability (p : Profile) (rng : RNG)
    (n horizon : Nat) (threshold : ℚ) : Except String (List ℚ) := do
  let res ← run_monte_carlo p rng n horizon
  .ok ((List.range (horizon + 1)).map
    (fun m => stress_fraction res.trajectories m threshold n))

/-- The scan loop of identify_default: walk the series keeping a
run-length counter c of consecutive entries strictly below the
threshold; report true as soon as the counter reaches k, reset it to
zero on any entry at or above the threshold. -/
def default_scan (t : ℚ) (k : Nat) : List ℚ → Nat → Bool
  | [], _ => false
  | b :: rest, c =>
    if b < t then
      if k ≤ c + 1 then true else default_scan t k rest (c + 1)
    else default_scan t k rest 0

/-- The scan of identify_default applied to a series, counter starting
at zero. -/
def identify_default_scan (series : List ℚ) (t : ℚ) (k : Nat) : Bool :=
  default_scan t k series 0

/-- identify_default: one fresh Monte Carlo run, then the consecutive
below-threshold scan over the median (p50) series. -/
def identify_default (p : Profile) (rng : RNG) (n horizon : Nat)
    (t : ℚ) (k : Nat) : Except String Bool := do
  let res ← run_monte_carlo p rng n horizon
  .ok (identify_default_scan res.p50 t k)

/-- One month of the formatted cashflow projection. -/
structure ProjEntry where
  month : Nat
  p10 : ℚ
  median : ℚ
  p90 : ℚ
  stress_probability : ℚ
deriving DecidableEq

/-- get_cashflow_projection: a Monte Carlo run for the percentile
series plus a second run inside calculate_stress_probability, then one
formatted entry per month 0..horizon. -/
def get_cashflow_projection (p : Profile) (rng : RNG) (n horizon : Nat) :
    Except String (List ProjEntry) := do
  let res ← run_monte_carlo p rng n horizon
  let sp ← calculate_stress_probability p rng n horizon (-500)
  .ok ((List.range (horizon + 1)).map (fun m =>
    { month := m
      p10 := res.p10.getD m 0
      median := res.p50.getD m 0
      p90 := res.p90.getD m 0
      stress_probability := sp.getD m 0 }))

/-- The extracted feature fields consumed by the verified claims. -/
structure Features where
  monthly_income : ℚ
  monthly_expenses : ℚ
  monthly_obligations : ℚ
  loan_payment : ℚ
  has_freelance_income : Bool
  avg_income_reliability : ℚ
  future_income_confidence : ℚ
  debt_to_income_ratio : ℚ
  buffer_months : ℚ
  net_monthly_cashflow : ℚ
  loan_duration_months : Nat
deriving DecidableEq

/-- Loan payment computed inline by extract_features of the model
service; textually duplicated from the simulator in the source. -/
def extract_features_loan_payment (P rate : ℚ) (n : Nat) : ℚ :=
  let r := rate / 100 / 12
  if r = 0 then P / (n : ℚ)
  else P * (r * (1 + r) ^ n) / ((1 + r) ^ n - 1)

/-- The reliability_scores table of extract_features; a missing or
unknown key raises KeyError. -/
def reliability_score (r : Option String) : Except String ℚ :=
  match r with
  | none => .error "KeyError: reliability"
  | some s =>
    if s = "high" then .ok 1
    else if s = "medium" then .ok (6 / 10)
    else if s = "low" then .ok (3 / 10)
    else .error "KeyError: reliability"

/-- The conf_scores table of extract_features; a missing or unknown
key raises KeyError. -/
def confidence_score (r : Option String) : Except String ℚ :=
  match r with
  | none => .error "KeyError: confidence"
  | some s =>
    if s = "high" then .ok 1
    else if s = "medium" then .ok (6 / 10)
    else if s = "low" then .ok (3 / 10)
    else .error "KeyError: confidence"

/-- Sequential traversal of a list by a fallible function; the first
raised error aborts and propagates, as in a Python list comprehension
of raising lookups. -/
def map_except {α β : Type} (f : α → Except String β) :
    List α → Except String (List β)
  | [] => .ok []
  | a :: as => do
    let b ← f a
    let bs ← map_except f as
    .ok (b :: bs)

/-- extract_features of the model service, restricted to the fields
the claims consume.  The reliability lookups run before the confidence
lookups, as in the source; both raise on a missing or unknown key, and
they are the only raising operations of the function. -/
def extract_features (p : Profile) : Except String Features := do
  let monthly_income := (p.income_streams.map (fun s => s.amount)).sum
  let monthly_expenses := (p.expenses.map (fun e => e.monthly_baseline)).sum
  let monthly_obligations := (p.obligations.map (fun o => o.monthly_amount)).sum
  let loan_payment := extract_features_loan_payment p.loan_amount
    p.loan_interest_rate p.loan_duration_months
  let has_freelance := p.income_streams.any (fun s => s.type == "freelance")
  let rels ← map_except (fun s => reliability_score s.reliability)
    p.income_streams
  let avg_income_reliability := rels.sum / (rels.length : ℚ)
  let confs ← map_except (fun fi => confidence_score fi.confidence)
    p.future_incomes
  let future_income_confidence :=
    if p.future_incomes.isEmpty then 0 else confs.sum / (confs.length : ℚ)
  let debt_to_income :=
    if 0 < monthly_income then (monthly_obligations + loan_payment) / monthly_income
    else 999
  let total_monthly_outflow := monthly_expenses + monthly_obligations + loan_payment
  let buffer_months :=
    if 0 < total_monthly_outflow then p.current_balance / total_monthly_outflow
    else 0
  let net_monthly_cashflow := monthly_income - total_monthly_outflow
  .ok {
    monthly_income := monthly_income
    monthly_expenses := monthly_expenses
    monthly_obligations := monthly_obligations
    loan_payment := loan_payment
    has_freelance_income := has_freelance
    avg_income_reliability := avg_income_reliability
    future_income_confidence := future_income_confidence
    debt_to_income_ratio := debt_to_income
    buffer_months := buffer_months
    net_monthly_cashflow := net_monthly_cashflow
    loan_duration_months := p.loan_duration_months }

/-- Categorize risk based on score (risk assessment service). -/
def categorize_risk (risk_score : ℚ) : String :=
  if risk_score < 25 then "low"
  else if risk_score < 50 then "medium"
  else if risk_score < 75 then "high"
  else "very_high"

/-- Loan recommendation of the risk assessment service: approve below
30; in the medium band an additional debt-to-income and buffer check
whose two branches both return review; reject from 60 on. -/
def get_recommendation (risk_score : ℚ) (features : Features) : String :=
  if risk_score < 30 then "approve"
  else if risk_score < 60 then
    if features.debt_to_income_ratio < 4 / 10 ∧ features.buffer_months > 3 then
      "review"
    else
      "review"
  else "reject"

/-- generate_recommendations of the risk assessment service: in the
band 30 < score < 70 the conditional suggestions plus the always
appended auto-payment suggestion; an empty list is returned as none. -/
def generate_recommendations (features : Features) (risk_score : ℚ) :
    Option (List String) :=
  let recommendations : List String :=
    if 30 < risk_score ∧ risk_score < 70 then
      (if features.buffer_months < 3 then
        ["Request additional collateral or guarantor"] else []) ++
      (if features.debt_to_income_ratio > 4 / 10 then
        ["Consider reducing loan amount or extending duration to improve DTI ratio"]
       else []) ++
      (if features.loan_duration_months < 36 then
        ["Extend loan duration to reduce monthly payment"] else []) ++
      (if features.has_freelance_income then
        ["Require 6 months of bank statements for income verification"] else []) ++
      ["Set up automatic payments from salary account"]
    else []
  if recommendations.isEmpty then none else some recommendations

/-- The guard around generate_recommendations in assess_risk: the
generator only runs at all when the risk score exceeds 30. -/
def recommendations_if_elevated (features : Features) (risk_score : ℚ) :
    Option (List String) :=
  if 30 < risk_score then generate_recommendations features risk_score
  else none

/-- The assessment payload fields the claims consume.  The SHAP
pass-through lists and the formatted warning strings are omitted;
neither can raise for a profile that passed feature extraction. -/
structure Assessment where
  risk_score : ℚ
  risk_category : String
  recommendation : String
  monthly_income : ℚ
  debt_to_income_ratio : ℚ
  buffer_months : ℚ
  cashflow_projection : List ProjEntry
  default_probability_12_months : ℚ
  default_probability_24_months : ℚ
  recommendations_for_approval : Option (List String)
deriving DecidableEq

/-- assess_risk of the risk assessment service: feature extraction
runs first, then the external classifier (abstracted as predict),
then the cashflow simulation with 100 simulations over 24 months. -/
def assess_risk (predict : Features → Except String ℚ) (p : Profile)
    (rng : RNG) : Except String Assessment := do
  let features ← extract_features p
  let risk_score ← predict features
  let proj ← get_cashflow_projection p rng 100 24
  .ok {
    risk_score := risk_score
    risk_category := categorize_risk risk_score
    recommendation := get_recommendation risk_score features
    monthly_income := features.monthly_income
    debt_to_income_ratio := features.debt_to_income_ratio
    buffer_months := features.buffer_months
    cashflow_projection := proj
    default_probability_12_months :=
      (proj.getD 12 ⟨0, 0, 0, 0, 0⟩).stress_probability
    default_probability_24_months :=
      (proj.getD 24 ⟨0, 0, 0, 0, 0⟩).stress_probability
    recommendations_for_approval :=
      recommendations_if_elevated features risk_score }

/-! ## Concrete fixtures used by the witnesses -/

/-- Constant random source used by the concrete witnesses. -/
def rng_one : RNG := fun _ _ _ => 1

/-- A minimal profile: no income, no expenses, no obligations, no
events, a zero loan at zero rate, starting from balance -1000. -/
def profile_min : Profile := {
  current_balance := -1000
  income_streams := []
  expenses := []
  obligations := []
  life_events := []
  future_incomes := []
  loan_amount := 0
  loan_interest_rate := 0
  loan_duration_months := 1 }

/-- A loan-only profile with the given loan parameters. -/
def loan_profile (P rate : ℚ) (n : Nat) : Profile := {
  current_balance := 0
  income_streams := []
  expenses := []
  obligations := []
  life_events := []
  future_incomes := []
  loan_amount := P
  loan_interest_rate := rate
  loan_duration_months := n }

/-- The Monte Carlo result of the minimal profile with one trajectory
over two months: every series is constant at the starting balance. -/
def mc_min : MCResult := {
  trajectories := [[-1000, -1000, -1000]]
  p10 := [-1000, -1000, -1000]
  p50 := [-1000, -1000, -1000]
  p90 := [-1000, -1000, -1000]
  mean := [-1000, -1000, -1000] }

/-- Concrete evaluation of the engine on the minimal profile. -/
lemma run_monte_carlo_min :
    run_monte_carlo profile_min rng_one 1 2 = .ok mc_min := by
  simp [run_monte_carlo, collect_trajectories, simulate_single_trajectory,
    simulate_months, month_net, income_draws, expense_draws, obligations_for,
    life_events_for, future_incomes_for, calculate_loan_payment, profile_min,
    percentile, interp_at, column, mean_list, List.insertionSort,
    List.range_succ, mc_min, Bind.bind, Except.bind]

/-! ## The consecutive-run characterisation of the default scan -/

/-- The series contains a run of at least k consecutive entries each
strictly below t. -/
def has_consecutive_run (series : List ℚ) (t : ℚ) (k : Nat) : Prop :=
  ∃ i, i + k ≤ series.length ∧ ∀ j, j < k → series.getD (i + j) 0 < t

lemma has_consecutive_run_cons (b : ℚ) (rest : List ℚ) (t : ℚ) (k : Nat)
    (h : has_consecutive_run rest t k) :
    has_consecutive_run (b :: rest) t k := by
  obtain ⟨i, hik, hall⟩ := h
  refine ⟨i + 1, by simp; omega, fun j hj => ?_⟩
  have heq : i + 1 + j = i + j + 1 := by omega
  rw [heq, List.getD_cons_succ]
  exact hall j hj

/-- Invariant of the scan loop: with counter c the scan succeeds
exactly when the head of the series extends the pending run of c
below-threshold entries to length k, or when a full run of k sits
somewhere in the series. -/
lemma default_scan_eq_true_iff (t : ℚ) (k : Nat) (series : List ℚ) :
    ∀ c, c < k →
      (default_scan t k series c = true ↔
        (∃ j, j ≤ series.length ∧ c + j = k ∧
          ∀ l, l < j → series.getD l 0 < t) ∨
        has_consecutive_run series t k) := by
  induction series with
  | nil =>
    intro c hc
    simp only [default_scan]
    constructor
    · intro h
      exact absurd h (by simp)
    · rintro (⟨j, hj, hcj, -⟩ | ⟨i, hik, -⟩)
      · simp only [List.length_nil, Nat.le_zero] at hj
        omega
      · simp only [List.length_nil, Nat.le_zero] at hik
        omega
  | cons b rest ih =>
    intro c hc
    by_cases hb : b < t
    · by_cases hk1 : k ≤ c + 1
      · simp only [default_scan, if_pos hb, if_pos hk1]
        constructor
        · intro _
          left
          refine ⟨1, by simp, by omega, fun l hl => ?_⟩
          interval_cases l
          simpa using hb
        · intro _
          trivial
      · have hc1 : c + 1 < k := by omega
        simp only [default_scan, if_pos hb, if_neg hk1]
        rw [ih (c + 1) hc1]
        constructor
        · rintro (⟨j, hj, hcj, hall⟩ | h)
          · left
            refine ⟨j + 1, by simp; omega, by omega, fun l hl => ?_⟩
            cases l with
            | zero => simpa using hb
            | succ l' =>
              rw [List.getD_cons_succ]
              exact hall l' (by omega)
          · exact Or.inr (has_consecutive_run_cons b rest t k h)
        · rintro (⟨j, hj, hcj, hall⟩ | ⟨i, hik, hall⟩)
          · left
            obtain ⟨j', rfl⟩ : ∃ j', j = j' + 1 := ⟨j - 1, by omega⟩
            refine ⟨j', by simp at hj; omega, by omega, fun l hl => ?_⟩
            have := hall (l + 1) (by omega)
            rwa [List.getD_cons_succ] at this
          · cases i with
            | zero =>
              left
              have hlen : k ≤ rest.length + 1 := by simpa using hik
              refine ⟨k - (c + 1), by omega, by omega, fun l hl => ?_⟩
              have := hall (l + 1) (by omega)
              rwa [Nat.zero_add, List.getD_cons_succ] at this
            | succ i' =>
              right
              refine ⟨i', by simp at hik; omega, fun j hj => ?_⟩
              have := hall j hj
              have heq : i' + 1 + j = i' + j + 1 := by omega
              rwa [heq, List.getD_cons_succ] at this
    · have h0k : 0 < k := by omega
      simp only [default_scan, if_neg hb]
      rw [ih 0 h0k]
      constructor
      · rintro (⟨j, hj, hcj, hall⟩ | h)
        · refine Or.inr (has_consecutive_run_cons b rest t k ⟨0, by omega, ?_⟩)
          intro jj hjj
          simpa using hall jj (by omega)
        · exact Or.inr (has_consecutive_run_cons b rest t k h)
      · rintro (⟨j, hj, hcj, hall⟩ | ⟨i, hik, hall⟩)
        · exfalso
          exact hb (by simpa using hall 0 (by omega))
        · cases i with
          | zero =>
            exfalso
            exact hb (by simpa using hall 0 h0k)
          | succ i' =>
            right
            refine ⟨i', by simp at hik; omega, fun j hj => ?_⟩
            have := hall j hj
            have heq : i' + 1 + j = i' + j + 1 := by omega
            rwa [heq, List.getD_cons_succ] at this

/-! ## C2: identify_default detects exactly a consecutive run -/

/-- C2: identify_default applied to the median (p50) series returns
true exactly when the series contains a run of at least k consecutive
entries each strictly below the threshold t; the counter resets on an
entry at or above t, so in particular k - 1 below-threshold entries
followed by a reset never fire, and a scan of the whole series without
such a run returns false. -/
theorem identify_default_iff_consecutive_run (p : Profile) (rng : RNG)
    (n horizon : Nat) (t : ℚ) (k : Nat) (res : MCResult)
    (hres : run_monte_carlo p rng n horizon = .ok res) (hk : 1 ≤ k) :
    identify_default p rng n horizon t k = .ok true ↔
      has_consecutive_run res.p50 t k := by
  have hid : identify_default p rng n horizon t k
      = .ok (identify_default_scan res.p50 t k) := by
    simp [identify_default, hres, Bind.bind, Except.bind]
  rw [hid]
  constructor
  · intro h
    have hb : identify_default_scan res.p50 t k = true := by
      injection h
    have hiff := (default_scan_eq_true_iff t k res.p50 0 (by omega)).mp hb
    rcases hiff with ⟨j, hj, hcj, hall⟩ | h'
    · exact ⟨0, by omega, fun jj hjj => by simpa using hall jj (by omega)⟩
    · exact h'
  · intro h
    have hb := (default_scan_eq_true_iff t k res.p50 0 (by omega)).mpr
      (Or.inr h)
    simp only [identify_default_scan, hb]

/-- Witness for C2: on the minimal profile the median series is
constantly -1000, which contains a run of three consecutive months
below -500, so identify_default fires with the default parameters. -/
theorem identify_default_iff_consecutive_run_witness :
    identify_default profile_min rng_one 1 2 (-500) 3 = .ok true := by
  refine (identify_default_iff_consecutive_run profile_min rng_one 1 2
    (-500) 3 mc_min run_monte_carlo_min (by norm_num)).mpr ?_
  refine ⟨0, by simp [mc_min], fun j hj => ?_⟩
  interval_cases j <;> norm_num [mc_min]

/-! ## C1: missing categorical keys abort the assessment early -/

/-- A categorical level key that is present and one of the three
admitted values. -/
def valid_level (r : Option String) : Prop :=
  r = some "high" ∨ r = some "medium" ∨ r = some "low"

lemma reliability_score_error (r : Option String) (h : ¬ valid_level r) :
    reliability_score r = .error "KeyError: reliability" := by
  match r with
  | none => rfl
  | some s =>
    have h1 : ¬ s = "high" := fun hh => h (Or.inl (by rw [hh]))
    have h2 : ¬ s = "medium" := fun hh => h (Or.inr (Or.inl (by rw [hh])))
    have h3 : ¬ s = "low" := fun hh => h (Or.inr (Or.inr (by rw [hh])))
    simp [reliability_score, h1, h2, h3]

lemma confidence_score_error (r : Option String) (h : ¬ valid_level r) :
    confidence_score r = .error "KeyError: confidence" := by
  match r with
  | none => rfl
  | some s =>
    have h1 : ¬ s = "high" := fun hh => h (Or.inl (by rw [hh]))
    have h2 : ¬ s = "medium" := fun hh => h (Or.inr (Or.inl (by rw [hh])))
    have h3 : ¬ s = "low" := fun hh => h (Or.inr (Or.inr (by rw [hh])))
    simp [confidence_score, h1, h2, h3]

/-- The traversal propagates the first raised error: if any element
raises, the whole traversal raises. -/
lemma map_except_error {α β : Type} (f : α → Except String β) :
    ∀ (l : List α) (a : α), a ∈ l → (∃ e, f a = .error e) →
      ∃ e', map_except f l = .error e' := by
  intro l
  induction l with
  | nil =>
    intro a ha
    simp at ha
  | cons x xs ih =>
    intro a ha hae
    obtain ⟨e, hfa⟩ := hae
    cases hx : f x with
    | error e' =>
      exact ⟨e', by simp [map_except, hx, Bind.bind, Except.bind]⟩
    | ok b =>
      rcases List.mem_cons.mp ha with rfl | hmem
      · rw [hfa] at hx
        cases hx
      · obtain ⟨e', he'⟩ := ih a hmem ⟨e, hfa⟩
        exact ⟨e', by simp [map_except, hx, he', Bind.bind, Except.bind]⟩

/-- C1: a profile in which some income stream has a missing or
inadmissible reliability key, or some future income entry has a
missing or inadmissible confidence key, makes feature extraction raise
a KeyError, and hence the entire assessment fails with that error: the
failure is independent of the random source because assess_risk runs
extract_features before the cashflow simulation is ever constructed,
so no entry is silently defaulted or dropped during trajectory
simulation. -/
theorem missing_categorical_key_fails_before_simulation
    (predict : Features → Except String ℚ) (p : Profile)
    (hbad : (∃ s ∈ p.income_streams, ¬ valid_level s.reliability) ∨
      (∃ fi ∈ p.future_incomes, ¬ valid_level fi.confidence)) :
    ∃ e, extract_features p = .error e ∧
      ∀ rng : RNG, assess_risk predict p rng = .error e := by
  have hext : ∃ e, extract_features p = .error e := by
    rcases hbad with ⟨s, hs, hbadl⟩ | ⟨fi, hfi, hbadc⟩
    · obtain ⟨e', he'⟩ := map_except_error
        (fun s => reliability_score s.reliability) p.income_streams s hs
        ⟨_, reliability_score_error _ hbadl⟩
      exact ⟨e', by simp [extract_features, he', Bind.bind, Except.bind]⟩
    · cases hrel : map_except (fun s => reliability_score s.reliability)
        p.income_streams with
      | error e' =>
        exact ⟨e', by simp [extract_features, hrel, Bind.bind, Except.bind]⟩
      | ok rels =>
        obtain ⟨e', he'⟩ := map_except_error
          (fun fi => confidence_score fi.confidence) p.future_incomes fi hfi
          ⟨_, confidence_score_error _ hbadc⟩
        exact ⟨e', by
          simp [extract_features, hrel, he', Bind.bind, Except.bind]⟩
  obtain ⟨e, he⟩ := hext
  exact ⟨e, he, fun rng => by simp [assess_risk, he, Bind.bind, Except.bind]⟩

/-- Profile whose single income stream carries an inadmissible
reliability value. -/
def profile_bad_key : Profile := { profile_min with
  income_streams :=
    [{ amount := 100, reliability := some "unknown", type := "salary",
       growth_rate := 0 }] }

/-- Witness for C1: on the concrete bad profile the assessment fails
for every random source. -/
theorem missing_categorical_key_fails_before_simulation_witness :
    ∃ e, extract_features profile_bad_key = .error e ∧
      ∀ rng : RNG,
        assess_risk (fun _ => .ok 50) profile_bad_key rng = .error e := by
  refine missing_categorical_key_fails_before_simulation
    (fun _ => .ok 50) profile_bad_key (Or.inl ?_)
  refine ⟨_, List.mem_cons_self _ _, ?_⟩
  simp [valid_level]

/-! ## Inversion lemmas for the Monte Carlo engine -/

lemma collect_trajectories_ok (p : Profile) (rng : RNG) (horizon : Nat) :
    ∀ (k i : Nat) (ts : List (List ℚ)),
      collect_trajectories p rng horizon i k = .ok ts →
      ts.length = k ∧
        ∀ j, j < k →
          simulate_single_trajectory p rng horizon (i + j) =
            .ok (ts.getD j []) := by
  intro k
  induction k with
  | zero =>
    intro i ts h
    simp only [collect_trajectories, Except.ok.injEq] at h
    subst h
    exact ⟨rfl, fun j hj => absurd hj (by omega)⟩
  | succ k ih =>
    intro i ts h
    cases hsim : simulate_single_trajectory p rng horizon i with
    | error e =>
      simp [collect_trajectories, hsim, Bind.bind, Except.bind] at h
    | ok t =>
      cases hrest : collect_trajectories p rng horizon (i + 1) k with
      | error e =>
        simp [collect_trajectories, hsim, hrest, Bind.bind, Except.bind] at h
      | ok rest =>
        have hts : ts = t :: rest := by
          simp only [collect_trajectories, hsim, hrest, Bind.bind,
            Except.bind, Except.ok.injEq] at h
          exact h.symm
        subst hts
        obtain ⟨hlen, hall⟩ := ih (i + 1) rest hrest
        refine ⟨by simp [hlen], fun j hj => ?_⟩
        cases j with
        | zero => simpa using hsim
        | succ j' =>
          have := hall j' (by omega)
          have heq : i + (j' + 1) = i + 1 + j' := by omega
          rw [heq, List.getD_cons_succ]
          exact this

lemma run_monte_carlo_ok (p : Profile) (rng : RNG) (n horizon : Nat)
    (res : MCResult) (h : run_monte_carlo p rng n horizon = .ok res) :
    ∃ trajs, collect_trajectories p rng horizon 0 n = .ok trajs ∧
      res.trajectories = trajs ∧
      res.p10 = (List.range (horizon + 1)).map
        (fun m => percentile (column trajs m) 10) ∧
      res.p50 = (List.range (horizon + 1)).map
        (fun m => percentile (column trajs m) 50) ∧
      res.p90 = (List.range (horizon + 1)).map
        (fun m => percentile (column trajs m) 90) ∧
      res.mean = (List.range (horizon + 1)).map
        (fun m => mean_list (column trajs m)) := by
  cases hc : collect_trajectories p rng horizon 0 n with
  | error e =>
    simp [run_monte_carlo, hc, Bind.bind, Except.bind] at h
  | ok trajs =>
    simp only [run_monte_carlo, hc, Bind.bind, Except.bind,
      Except.ok.injEq] at h
    exact ⟨trajs, rfl, by rw [← h], by rw [← h], by rw [← h], by rw [← h],
      by rw [← h]⟩

lemma getD_map_range (f : Nat → ℚ) (N m : Nat) (hm : m < N) :
    ((List.range N).map f).getD m 0 = f m := by
  rw [List.getD_eq_getElem _ _ (by simpa using hm)]
  simp

lemma simulate_single_trajectory_head (p : Profile) (rng : RNG)
    (horizon seed : Nat) (bs : List ℚ)
    (h : simulate_single_trajectory p rng horizon seed = .ok bs) :
    bs.getD 0 0 = p.current_balance := by
  cases hm : simulate_months p rng seed p.current_balance 1 0 horizon with
  | error e =>
    simp [simulate_single_trajectory, hm, Bind.bind, Except.bind] at h
  | ok rest =>
    simp only [simulate_single_trajectory, hm, Bind.bind, Except.bind,
      Except.ok.injEq] at h
    rw [← h]
    rfl

lemma column_zero_replicate (p : Profile) (rng : RNG) (n horizon : Nat)
    (trajs : List (List ℚ))
    (hc : collect_trajectories p rng horizon 0 n = .ok trajs) :
    column trajs 0 = List.replicate n p.current_balance := by
  obtain ⟨hlen, hall⟩ := collect_trajectories_ok p rng horizon n 0 trajs hc
  rw [List.eq_replicate_iff]
  constructor
  · simp [column, hlen]
  · intro b hb
    obtain ⟨tr, htr, rfl⟩ := List.mem_map.mp hb
    obtain ⟨j, hj, hget⟩ := List.mem_iff_getElem.mp htr
    have hj' : j < n := by omega
    have hsim := hall j hj'
    rw [Nat.zero_add] at hsim
    rw [List.getD_eq_getElem _ _ (by omega), hget] at hsim
    exact simulate_single_trajectory_head p rng horizon j tr hsim

/-! ## C3: determinism of the Monte Carlo engine -/

/-- C3: the engine is a pure function of the profile and the random
source, so two invocations with the same profile, simulation count and
horizon agree on every aggregate series; and trajectory i of the
result is exactly the single-trajectory simulation seeded with the
integer i, for every i below the simulation count. -/
theorem monte_carlo_deterministic (p : Profile) (rng : RNG)
    (n horizon : Nat) (res₁ res₂ : MCResult)
    (h₁ : run_monte_carlo p rng n horizon = .ok res₁)
    (h₂ : run_monte_carlo p rng n horizon = .ok res₂) :
    res₁.p10 = res₂.p10 ∧ res₁.p50 = res₂.p50 ∧ res₁.p90 = res₂.p90 ∧
      res₁.mean = res₂.mean ∧
      ∀ i, i < n →
        simulate_single_trajectory p rng horizon i =
          .ok (res₁.trajectories.getD i []) := by
  have hres : res₁ = res₂ := by
    rw [h₁] at h₂
    injection h₂
  subst hres
  refine ⟨rfl, rfl, rfl, rfl, fun i hi => ?_⟩
  obtain ⟨trajs, hc, htr, -⟩ := run_monte_carlo_ok p rng n horizon res₁ h₁
  have := (collect_trajectories_ok p rng horizon n 0 trajs hc).2 i hi
  rw [Nat.zero_add] at this
  rw [htr]
  exact this

/-- Witness for C3 on the minimal profile with one simulation over two
months: trajectory 0 of the engine output is the seed-0 simulation. -/
theorem monte_carlo_deterministic_witness :
    simulate_single_trajectory profile_min rng_one 2 0 =
      .ok (mc_min.trajectories.getD 0 []) := by
  exact (monte_carlo_deterministic profile_min rng_one 1 2 mc_min mc_min
    run_monte_carlo_min run_monte_carlo_min).2.2.2.2 0 (by norm_num)

/-! ## Monotonicity of the linear-interpolation percentile -/

lemma sorted_getD_le (s : List ℚ) (hs : s.Sorted (· ≤ ·)) (i j : Nat)
    (hij : i ≤ j) (hj : j < s.length) : s.getD i 0 ≤ s.getD j 0 := by
  have hi : i < s.length := lt_of_le_of_lt hij hj
  rw [List.getD_eq_getElem _ _ hi, List.getD_eq_getElem _ _ hj]
  have := hs.rel_get_of_le (a := ⟨i, hi⟩) (b := ⟨j, hj⟩)
    (Fin.mk_le_mk.mpr hij)
  simpa using this

/-- The interpolation step of the percentile is monotone in the
fractional index over a sorted list. -/
lemma interp_at_mono (s : List ℚ) (hs : s.Sorted (· ≤ ·)) (h₁ h₂ : ℚ)
    (h0 : 0 ≤ h₁) (h12 : h₁ ≤ h₂) (hub : h₂ ≤ (s.length : ℚ) - 1) :
    interp_at s h₁ ≤ interp_at s h₂ := by
  have h0' : 0 ≤ h₂ := le_trans h0 h12
  have hlen : 1 ≤ s.length := by
    have hq : (1 : ℚ) ≤ (s.length : ℚ) := by linarith
    exact_mod_cast hq
  have hcast : ((s.length - 1 : Nat) : ℚ) = (s.length : ℚ) - 1 := by
    rw [Nat.cast_sub hlen]
    norm_num
  have hceil₂ : ⌈h₂⌉₊ ≤ s.length - 1 := Nat.ceil_le.mpr (by rw [hcast]; exact hub)
  have hceil₂' : ⌈h₂⌉₊ < s.length := by omega
  have hfc₂ : ⌊h₂⌋₊ ≤ ⌈h₂⌉₊ := Nat.floor_le_ceil h₂
  have hfloor₂' : ⌊h₂⌋₊ < s.length := by omega
  have hflle : ⌊h₁⌋₊ ≤ ⌊h₂⌋₊ := Nat.floor_mono h12
  have hceil₁ : ⌈h₁⌉₊ ≤ ⌈h₂⌉₊ := Nat.ceil_mono h12
  have hceil₁' : ⌈h₁⌉₊ < s.length := by omega
  have hfc₁ : ⌊h₁⌋₊ ≤ ⌈h₁⌉₊ := Nat.floor_le_ceil h₁
  have hfloor₁' : ⌊h₁⌋₊ < s.length := by omega
  have hf₁ : (⌊h₁⌋₊ : ℚ) ≤ h₁ := Nat.floor_le h0
  have hf₂ : (⌊h₂⌋₊ : ℚ) ≤ h₂ := Nat.floor_le h0'
  have hf₁' : h₁ < ⌊h₁⌋₊ + 1 := Nat.lt_floor_add_one h₁
  have hf₂' : h₂ < ⌊h₂⌋₊ + 1 := Nat.lt_floor_add_one h₂
  have ha₁b₁ : s.getD ⌊h₁⌋₊ 0 ≤ s.getD ⌈h₁⌉₊ 0 :=
    sorted_getD_le s hs _ _ hfc₁ hceil₁'
  have ha₂b₂ : s.getD ⌊h₂⌋₊ 0 ≤ s.getD ⌈h₂⌉₊ 0 :=
    sorted_getD_le s hs _ _ hfc₂ hceil₂'
  by_cases heq : ⌊h₁⌋₊ = ⌊h₂⌋₊
  · by_cases hint : h₁ = (⌊h₁⌋₊ : ℚ)
    · have e₁ : interp_at s h₁ = s.getD ⌊h₁⌋₊ 0 := by
        simp only [interp_at, ← hint]
        ring
      have hge : s.getD ⌊h₂⌋₊ 0 ≤ interp_at s h₂ := by
        have hprod : 0 ≤ (h₂ - (⌊h₂⌋₊ : ℚ)) *
            (s.getD ⌈h₂⌉₊ 0 - s.getD ⌊h₂⌋₊ 0) :=
          mul_nonneg (by linarith) (by linarith)
        simp only [interp_at]
        linarith
      rw [e₁, heq]
      exact hge
    · have hlt₁ : (⌊h₁⌋₊ : ℚ) < h₁ :=
        lt_of_le_of_ne hf₁ (fun hh => hint hh.symm)
      have hc₁ : ⌈h₁⌉₊ = ⌊h₁⌋₊ + 1 := by
        have hle := Nat.ceil_le_floor_add_one h₁
        have hgt : ⌊h₁⌋₊ < ⌈h₁⌉₊ := Nat.lt_ceil.mpr hlt₁
        omega
      have hlt₂ : (⌊h₂⌋₊ : ℚ) < h₂ := by
        rw [← heq]
        exact lt_of_lt_of_le hlt₁ h12
      have hc₂ : ⌈h₂⌉₊ = ⌊h₁⌋₊ + 1 := by
        have hle := Nat.ceil_le_floor_add_one h₂
        have hgt : ⌊h₂⌋₊ < ⌈h₂⌉₊ := Nat.lt_ceil.mpr hlt₂
        omega
      have hidx : ⌊h₁⌋₊ + 1 < s.length := by omega
      have hslope : 0 ≤ s.getD (⌊h₁⌋₊ + 1) 0 - s.getD ⌊h₁⌋₊ 0 := by
        have := sorted_getD_le s hs ⌊h₁⌋₊ (⌊h₁⌋₊ + 1) (by omega) hidx
        linarith
      simp only [interp_at, hc₁, hc₂, ← heq]
      have hmul := mul_le_mul_of_nonneg_right
        (sub_le_sub_right h12 ((⌊h₁⌋₊ : ℚ))) hslope
      linarith
  · have hlt : ⌊h₁⌋₊ < ⌊h₂⌋₊ := lt_of_le_of_ne hflle heq
    have step1 : interp_at s h₁ ≤ s.getD ⌈h₁⌉₊ 0 := by
      have hfrac : h₁ - (⌊h₁⌋₊ : ℚ) ≤ 1 := by linarith
      have hmul := mul_le_mul_of_nonneg_right hfrac (by linarith :
        (0 : ℚ) ≤ s.getD ⌈h₁⌉₊ 0 - s.getD ⌊h₁⌋₊ 0)
      simp only [interp_at]
      linarith
    have step2 : s.getD ⌈h₁⌉₊ 0 ≤ s.getD ⌊h₂⌋₊ 0 := by
      apply sorted_getD_le s hs _ _ ?_ hfloor₂'
      have := Nat.ceil_le_floor_add_one h₁
      omega
    have step3 : s.getD ⌊h₂⌋₊ 0 ≤ interp_at s h₂ := by
      have hprod : 0 ≤ (h₂ - (⌊h₂⌋₊ : ℚ)) *
          (s.getD ⌈h₂⌉₊ 0 - s.getD ⌊h₂⌋₊ 0) :=
        mul_nonneg (by linarith) (by linarith)
      simp only [interp_at]
      linarith
    linarith

/-- The linear-interpolation percentile is monotone in q. -/
lemma percentile_mono (xs : List ℚ) (q₁ q₂ : ℚ) (hlen : 1 ≤ xs.length)
    (h0 : 0 ≤ q₁) (h12 : q₁ ≤ q₂) (h100 : q₂ ≤ 100) :
    percentile xs q₁ ≤ percentile xs q₂ := by
  have hlen' : (0 : ℚ) ≤ (xs.length : ℚ) - 1 := by
    have hq : (1 : ℚ) ≤ (xs.length : ℚ) := by exact_mod_cast hlen
    linarith
  have hsl : (xs.insertionSort (· ≤ ·)).length = xs.length :=
    List.length_insertionSort _ _
  apply interp_at_mono
  · exact List.sorted_insertionSort _ xs
  · exact div_nonneg (mul_nonneg h0 hlen') (by norm_num)
  · have := mul_le_mul_of_nonneg_right h12 hlen'
    linarith
  · rw [hsl]
    have := mul_le_mul_of_nonneg_right h100 hlen'
    linarith

/-- Percentile of a constant ensemble. -/
lemma percentile_replicate (n : Nat) (c q : ℚ) (hn : 1 ≤ n)
    (h0 : 0 ≤ q) (h100 : q ≤ 100) :
    percentile (List.replicate n c) q = c := by
  have hsort : (List.replicate n c).insertionSort (· ≤ ·)
      = List.replicate n c := by
    rw [List.eq_replicate_iff]
    refine ⟨by rw [List.length_insertionSort, List.length_replicate],
      fun b hb => ?_⟩
    exact List.eq_of_mem_replicate
      ((List.perm_insertionSort _ _).mem_iff.mp hb)
  rw [percentile, hsort, List.length_replicate]
  have hn' : (0 : ℚ) ≤ (n : ℚ) - 1 := by
    have hq : (1 : ℚ) ≤ (n : ℚ) := by exact_mod_cast hn
    linarith
  have h0' : 0 ≤ q * ((n : ℚ) - 1) / 100 :=
    div_nonneg (mul_nonneg h0 hn') (by norm_num)
  have hub : q * ((n : ℚ) - 1) / 100 ≤ (n : ℚ) - 1 := by
    have := mul_le_mul_of_nonneg_right h100 hn'
    linarith
  have hcast : ((n - 1 : Nat) : ℚ) = (n : ℚ) - 1 := by
    rw [Nat.cast_sub hn]
    norm_num
  have hceil : ⌈q * ((n : ℚ) - 1) / 100⌉₊ < n := by
    have hle : ⌈q * ((n : ℚ) - 1) / 100⌉₊ ≤ n - 1 :=
      Nat.ceil_le.mpr (by rw [hcast]; exact hub)
    omega
  have hfloor : ⌊q * ((n : ℚ) - 1) / 100⌋₊ < n := by
    have := Nat.floor_le_ceil (q * ((n : ℚ) - 1) / 100)
    omega
  rw [interp_at,
    List.getD_eq_getElem _ _ (by simpa using hfloor),
    List.getD_eq_getElem _ _ (by simpa using hceil)]
  simp only [List.getElem_replicate]
  ring

/-! ## C7: percentile ordering of the aggregate series -/

/-- C7: for every month index up to the horizon, the aggregated
linear-interpolation percentiles of the ensemble satisfy
p10 ≤ p50 ≤ p90. -/
theorem percentile_ordering (p : Profile) (rng : RNG) (n horizon m : Nat)
    (res : MCResult) (hres : run_monte_carlo p rng n horizon = .ok res)
    (hn : 1 ≤ n) (hm : m ≤ horizon) :
    res.p10.getD m 0 ≤ res.p50.getD m 0 ∧
      res.p50.getD m 0 ≤ res.p90.getD m 0 := by
  obtain ⟨trajs, hc, htr, h10, h50, h90, hmean⟩ :=
    run_monte_carlo_ok p rng n horizon res hres
  have hlen : (column trajs m).length = n := by
    simp [column, (collect_trajectories_ok p rng horizon n 0 trajs hc).1]
  have hlen' : 1 ≤ (column trajs m).length := by omega
  rw [h10, h50, h90,
    getD_map_range (fun m => percentile (column trajs m) 10) (horizon + 1)
      m (by omega),
    getD_map_range (fun m => percentile (column trajs m) 50) (horizon + 1)
      m (by omega),
    getD_map_range (fun m => percentile (column trajs m) 90) (horizon + 1)
      m (by omega)]
  constructor
  · exact percentile_mono (column trajs m) 10 50 hlen' (by norm_num)
      (by norm_num) (by norm_num)
  · exact percentile_mono (column trajs m) 50 90 hlen' (by norm_num)
      (by norm_num) (by norm_num)

/-- Witness for C7 at month 1 of the minimal one-simulation run. -/
theorem percentile_ordering_witness :
    mc_min.p10.getD 1 0 ≤ mc_min.p50.getD 1 0 ∧
      mc_min.p50.getD 1 0 ≤ mc_min.p90.getD 1 0 :=
  percentile_ordering profile_min rng_one 1 2 1 mc_min run_monte_carlo_min
    (by norm_num) (by norm_num)

/-! ## C4: stress probability bounds and threshold monotonicity -/

lemma calculate_stress_probability_ok (p : Profile) (rng : RNG)
    (n horizon : Nat) (t : ℚ) (sp : List ℚ)
    (h : calculate_stress_probability p rng n horizon t = .ok sp) :
    ∃ res, run_monte_carlo p rng n horizon = .ok res ∧
      sp = (List.range (horizon + 1)).map
        (fun m => stress_fraction res.trajectories m t n) := by
  cases hr : run_monte_carlo p rng n horizon with
  | error e =>
    simp [calculate_stress_probability, hr, Bind.bind, Except.bind] at h
  | ok res =>
    simp only [calculate_stress_probability, hr, Bind.bind, Except.bind,
      Except.ok.injEq] at h
    exact ⟨res, rfl, h.symm⟩

lemma list_countP_mono {α : Type} (p q : α → Bool) :
    ∀ l : List α, (∀ a ∈ l, p a = true → q a = true) →
      l.countP p ≤ l.countP q := by
  intro l
  induction l with
  | nil =>
    intro _
    simp
  | cons x xs ih =>
    intro h
    rw [List.countP_cons, List.countP_cons]
    have hxs := ih (fun a ha hpa => h a (List.mem_cons_of_mem _ ha) hpa)
    by_cases hx : p x = true
    · have hq := h x (List.mem_cons_self _ _) hx
      simp only [hx, hq, if_true]
      omega
    · have hfalse : p x = false := by simpa using hx
      cases hqx : q x <;> simp [hfalse, hqx] <;> omega

/-- C4: the stress probability of month m at threshold t is the
fraction of the n trajectories whose balance at m is strictly below t;
it lies in [0, 1]; and for thresholds t₁ ≤ t₂ computed over the same
deterministic ensemble, the probability at t₁ is at most the
probability at t₂. -/
theorem stress_probability_bounds_and_monotone (p : Profile) (rng : RNG)
    (n horizon : Nat) (t₁ t₂ : ℚ) (m : Nat) (sp₁ sp₂ : List ℚ)
    (h₁ : calculate_stress_probability p rng n horizon t₁ = .ok sp₁)
    (h₂ : calculate_stress_probability p rng n horizon t₂ = .ok sp₂)
    (hm : m ≤ horizon) (hn : 1 ≤ n) (ht : t₁ ≤ t₂) :
    (∃ res, run_monte_carlo p rng n horizon = .ok res ∧
      res.trajectories.length = n ∧
      sp₁.getD m 0 = ((res.trajectories.countP
          (fun tr => tr.getD m 0 < t₁) : ℚ)) / (n : ℚ)) ∧
    0 ≤ sp₁.getD m 0 ∧ sp₁.getD m 0 ≤ 1 ∧ sp₁.getD m 0 ≤ sp₂.getD m 0 := by
  obtain ⟨res₁, hr₁, hsp₁⟩ :=
    calculate_stress_probability_ok p rng n horizon t₁ sp₁ h₁
  obtain ⟨res₂, hr₂, hsp₂⟩ :=
    calculate_stress_probability_ok p rng n horizon t₂ sp₂ h₂
  rw [hr₁] at hr₂
  injection hr₂ with hres
  subst hres
  obtain ⟨trajs, hc, htr, -⟩ := run_monte_carlo_ok p rng n horizon res₁ hr₁
  have hlen : res₁.trajectories.length = n := by
    rw [htr]
    exact (collect_trajectories_ok p rng horizon n 0 trajs hc).1
  have hg₁ : sp₁.getD m 0 = stress_fraction res₁.trajectories m t₁ n := by
    rw [hsp₁, getD_map_range _ _ _ (by omega)]
  have hg₂ : sp₂.getD m 0 = stress_fraction res₁.trajectories m t₂ n := by
    rw [hsp₂, getD_map_range _ _ _ (by omega)]
  have hn' : (0 : ℚ) < (n : ℚ) := by
    exact_mod_cast Nat.pos_of_ne_zero (by omega)
  refine ⟨⟨res₁, hr₁, hlen, by rw [hg₁]; rfl⟩, ?_, ?_, ?_⟩
  · rw [hg₁]
    exact div_nonneg (Nat.cast_nonneg _) (Nat.cast_nonneg _)
  · rw [hg₁, stress_fraction, div_le_one hn']
    have hcle : res₁.trajectories.countP
        (fun tr => tr.getD m 0 < t₁) ≤ n := by
      rw [← hlen]
      exact List.countP_le_length _
    exact_mod_cast hcle
  · rw [hg₁, hg₂]
    have hcount : res₁.trajectories.countP
          (fun tr => decide (tr.getD m 0 < t₁)) ≤
        res₁.trajectories.countP (fun tr => decide (tr.getD m 0 < t₂)) := by
      apply list_countP_mono
      intro tr _ hp
      simp only [decide_eq_true_eq] at hp ⊢
      linarith
    have hcast : ((res₁.trajectories.countP
          (fun tr => decide (tr.getD m 0 < t₁)) : ℚ)) ≤
        ((res₁.trajectories.countP
          (fun tr => decide (tr.getD m 0 < t₂)) : ℚ)) := by
      exact_mod_cast hcount
    rw [stress_fraction, stress_fraction]
    gcongr

/-- Concrete stress series of the minimal profile at threshold -2000:
no month falls below. -/
lemma stress_min_low :
    calculate_stress_probability profile_min rng_one 1 2 (-2000)
      = .ok [0, 0, 0] := by
  simp [calculate_stress_probability, run_monte_carlo_min, stress_fraction,
    mc_min, column, List.range_succ, List.countP_cons, Bind.bind,
    Except.bind]
  norm_num

/-- Concrete stress series of the minimal profile at threshold -500:
every month falls below. -/
lemma stress_min_high :
    calculate_stress_probability profile_min rng_one 1 2 (-500)
      = .ok [1, 1, 1] := by
  simp [calculate_stress_probability, run_monte_carlo_min, stress_fraction,
    mc_min, column, List.range_succ, List.countP_cons, Bind.bind,
    Except.bind]
  norm_num

/-- Witness for C4 at month 1 of the minimal run with thresholds
-2000 ≤ -500. -/
theorem stress_probability_bounds_and_monotone_witness :
    (0 : ℚ) ≤ ([(0 : ℚ), 0, 0]).getD 1 0 ∧
      ([(0 : ℚ), 0, 0]).getD 1 0 ≤ 1 ∧
      ([(0 : ℚ), 0, 0]).getD 1 0 ≤ ([(1 : ℚ), 1, 1]).getD 1 0 := by
  have h := stress_probability_bounds_and_monotone profile_min rng_one 1 2
    (-2000) (-500) 1 [0, 0, 0] [1, 1, 1] stress_min_low stress_min_high
    (by norm_num) (by norm_num) (by norm_num)
  exact ⟨h.2.1, h.2.2.1, h.2.2.2⟩

/-! ## C10: month zero participates in the default scan -/

/-- C10: the default scan includes index 0 of the median series, which
always equals the current balance of the profile; hence when the
current balance is strictly below the threshold, two further
below-threshold simulated months already make identify_default fire
with consecutive_months = 3. -/
theorem median_month_zero_counts (p : Profile) (rng : RNG)
    (n horizon : Nat) (t : ℚ) (res : MCResult)
    (hres : run_monte_carlo p rng n horizon = .ok res) (hn : 1 ≤ n) :
    res.p50.getD 0 0 = p.current_balance ∧
      (p.current_balance < t → res.p50.getD 1 0 < t →
        res.p50.getD 2 0 < t → 2 ≤ horizon →
        identify_default p rng n horizon t 3 = .ok true) := by
  obtain ⟨trajs, hc, htr, h10, h50, h90, hmean⟩ :=
    run_monte_carlo_ok p rng n horizon res hres
  have hcol : column trajs 0 = List.replicate n p.current_balance :=
    column_zero_replicate p rng n horizon trajs hc
  have h0 : res.p50.getD 0 0 = p.current_balance := by
    rw [h50, getD_map_range _ _ _ (by omega), hcol]
    exact percentile_replicate n p.current_balance 50 hn
      (by norm_num) (by norm_num)
  refine ⟨h0, fun hb h1 h2 hh => ?_⟩
  have hlen50 : res.p50.length = horizon + 1 := by
    rw [h50]
    simp
  have hrun : has_consecutive_run res.p50 t 3 := by
    refine ⟨0, by omega, fun j hj => ?_⟩
    interval_cases j
    · simp only [Nat.zero_add]
      rw [h0]
      exact hb
    · simpa using h1
    · simpa using h2
  have hscan := (default_scan_eq_true_iff t 3 res.p50 0 (by omega)).mpr
    (Or.inr hrun)
  simp [identify_default, hres, identify_default_scan, hscan, Bind.bind,
    Except.bind]

/-- Witness for C10: on the minimal profile with threshold -900, the
median at month 0 equals the starting balance -1000 and the default
flag fires. -/
theorem median_month_zero_counts_witness :
    mc_min.p50.getD 0 0 = -1000 ∧
      identify_default profile_min rng_one 1 2 (-900) 3 = .ok true := by
  have h := median_month_zero_counts profile_min rng_one 1 2 (-900) mc_min
    run_monte_carlo_min (by norm_num)
  refine ⟨by simpa [profile_min] using h.1, ?_⟩
  exact h.2 (by norm_num [profile_min]) (by norm_num [mc_min])
    (by norm_num [mc_min]) (by norm_num)

/-! ## C5: annuity loan payment formula -/

/-- C5: the monthly loan payment equals
P * r * (1+r)^n / ((1+r)^n - 1) with r = rate/100/12 whenever r is
nonzero, and exactly P/n when r = 0; for a positive rate and a
positive duration the denominator is nonzero, and the loan payment of
feature extraction is computed by the same formula. -/
theorem loan_payment_annuity_formula (p : Profile) :
    (p.loan_interest_rate / 100 / 12 = 0 →
      calculate_loan_payment p =
        p.loan_amount / (p.loan_duration_months : ℚ)) ∧
    (p.loan_interest_rate / 100 / 12 ≠ 0 →
      calculate_loan_payment p =
        p.loan_amount * ((p.loan_interest_rate / 100 / 12) *
            (1 + p.loan_interest_rate / 100 / 12) ^ p.loan_duration_months) /
          ((1 + p.loan_interest_rate / 100 / 12) ^ p.loan_duration_months
            - 1)) ∧
    (0 < p.loan_interest_rate → p.loan_duration_months ≠ 0 →
      (1 + p.loan_interest_rate / 100 / 12) ^ p.loan_duration_months
        - 1 ≠ 0) ∧
    extract_features_loan_payment p.loan_amount p.loan_interest_rate
        p.loan_duration_months = calculate_loan_payment p := by
  refine ⟨fun h0 => ?_, fun hne => ?_, fun hpos hn => ?_, rfl⟩
  · simp only [calculate_loan_payment, if_pos h0]
  · simp only [calculate_loan_payment, if_neg hne]
  · have hr : (0 : ℚ) < p.loan_interest_rate / 100 / 12 := by positivity
    have h1 : (1 : ℚ) <
        (1 + p.loan_interest_rate / 100 / 12) ^ p.loan_duration_months :=
      one_lt_pow₀ (by linarith) hn
    intro hc
    have : (1 + p.loan_interest_rate / 100 / 12) ^ p.loan_duration_months
        = 1 := by linarith
    simp [this] at h1

/-- Witness for C5: the zero-rate branch at P = 1200, n = 12 gives
exactly 100, and the nonzero branch at P = 1000, annual rate 1200
(monthly rate 1), n = 2 gives 4000/3. -/
theorem loan_payment_annuity_formula_witness :
    calculate_loan_payment (loan_profile 1200 0 12) = 100 ∧
      calculate_loan_payment (loan_profile 1000 1200 2) = 4000 / 3 := by
  constructor
  · have h := (loan_payment_annuity_formula (loan_profile 1200 0 12)).1
    rw [h (by norm_num [loan_profile])]
    norm_num [loan_profile]
  · have h := (loan_payment_annuity_formula (loan_profile 1000 1200 2)).2.1
    rw [h (by norm_num [loan_profile])]
    norm_num [loan_profile]

/-! ## C6: obligation windowing -/

/-- C6: in the monthly obligations sum used by the trajectory
simulator (obligations_for inside month_net), an obligation with
remaining_months = k contributes its monthly amount to month m exactly
when m ≤ k, and contributes nothing otherwise. -/
theorem obligation_windowing (o : Obligation) (obls : List Obligation)
    (m : Nat) :
    obligations_for (o :: obls) m =
      (if m ≤ o.remaining_months then o.monthly_amount else 0) +
        obligations_for obls m := by
  by_cases h : m ≤ o.remaining_months <;>
    simp [obligations_for, List.filter_cons, h]

/-! ## C8: approval recommendations only in the medium band -/

/-- Feature fixture of a comfortable profile. -/
def features_safe : Features := {
  monthly_income := 2500
  monthly_expenses := 800
  monthly_obligations := 0
  loan_payment := 480
  has_freelance_income := false
  avg_income_reliability := 1
  future_income_confidence := 0
  debt_to_income_ratio := 1 / 5
  buffer_months := 5
  net_monthly_cashflow := 1200
  loan_duration_months := 36 }

/-- Feature fixture of a stretched profile. -/
def features_risky : Features := {
  monthly_income := 100
  monthly_expenses := 90
  monthly_obligations := 50
  loan_payment := 30
  has_freelance_income := true
  avg_income_reliability := 3 / 10
  future_income_confidence := 0
  debt_to_income_ratio := 9 / 10
  buffer_months := 0
  net_monthly_cashflow := -70
  loan_duration_months := 12 }

/-- C8: the approval recommendation field of the assessment (the
guard of assess_risk composed with generate_recommendations) is none
whenever the risk score is at most 30 or at least 70; a produced list
implies the score lies strictly inside the medium band (so every
conditional suggestion is only ever emitted there) and always carries
the auto-payment suggestion; and strictly inside the band a list is
always produced. -/
theorem recommendations_only_in_medium_band (f : Features) (s : ℚ) :
    ((s ≤ 30 ∨ 70 ≤ s) → recommendations_if_elevated f s = none) ∧
    (∀ l, recommendations_if_elevated f s = some l →
      30 < s ∧ s < 70 ∧
        "Set up automatic payments from salary account" ∈ l) ∧
    (30 < s → s < 70 → ∃ l, recommendations_if_elevated f s = some l) := by
  refine ⟨?_, ?_, ?_⟩
  · rintro (h | h)
    · simp [recommendations_if_elevated, not_lt.mpr h]
    · have h30 : (30 : ℚ) < s := by linarith
      have h70 : ¬ s < 70 := not_lt.mpr (by linarith)
      simp [recommendations_if_elevated, generate_recommendations, h30, h70]
  · intro l hl
    by_cases h30 : (30 : ℚ) < s
    · simp only [recommendations_if_elevated, if_pos h30] at hl
      by_cases h70 : s < 70
      · refine ⟨h30, h70, ?_⟩
        simp only [generate_recommendations, if_pos (And.intro h30 h70)] at hl
        have hne :
            ((if f.buffer_months < 3 then
                ["Request additional collateral or guarantor"] else []) ++
              (if f.debt_to_income_ratio > 4 / 10 then
                ["Consider reducing loan amount or extending duration to improve DTI ratio"]
               else []) ++
              (if f.loan_duration_months < 36 then
                ["Extend loan duration to reduce monthly payment"] else []) ++
              (if f.has_freelance_income then
                ["Require 6 months of bank statements for income verification"]
               else []) ++
              ["Set up automatic payments from salary account"]).isEmpty
              = false := by
          simp
        rw [hne] at hl
        simp only [Bool.false_eq_true, if_false, Option.some.injEq] at hl
        subst hl
        simp
      · exfalso
        have : ¬ ((30 : ℚ) < s ∧ s < 70) := fun hc => h70 hc.2
        simp [generate_recommendations, if_neg this] at hl
    · simp [recommendations_if_elevated, if_neg h30] at hl
  · intro h30 h70
    refine ⟨(if f.buffer_months < 3 then
        ["Request additional collateral or guarantor"] else []) ++
      (if f.debt_to_income_ratio > 4 / 10 then
        ["Consider reducing loan amount or extending duration to improve DTI ratio"]
       else []) ++
      (if f.loan_duration_months < 36 then
        ["Extend loan duration to reduce monthly payment"] else []) ++
      (if f.has_freelance_income then
        ["Require 6 months of bank statements for income verification"]
       else []) ++
      ["Set up automatic payments from salary account"], ?_⟩
    simp only [recommendations_if_elevated, if_pos h30,
      generate_recommendations, if_pos (And.intro h30 h70)]
    have hne :
        ((if f.buffer_months < 3 then
            ["Request additional collateral or guarantor"] else []) ++
          (if f.debt_to_income_ratio > 4 / 10 then
            ["Consider reducing loan amount or extending duration to improve DTI ratio"]
           else []) ++
          (if f.loan_duration_months < 36 then
            ["Extend loan duration to reduce monthly payment"] else []) ++
          (if f.has_freelance_income then
            ["Require 6 months of bank statements for income verification"]
           else []) ++
          ["Set up automatic payments from salary account"]).isEmpty
          = false := by
      simp
    rw [hne]
    simp

/-- Witness for C8: below the band (score 20) and above the band
(score 80) no recommendations are produced; at score 50 a list is
produced. -/
theorem recommendations_only_in_medium_band_witness :
    recommendations_if_elevated features_risky 20 = none ∧
      recommendations_if_elevated features_risky 80 = none ∧
      ∃ l, recommendations_if_elevated features_risky 50 = some l := by
  refine ⟨?_, ?_, ?_⟩
  · exact (recommendations_only_in_medium_band features_risky 20).1
      (Or.inl (by norm_num))
  · exact (recommendations_only_in_medium_band features_risky 80).1
      (Or.inr (by norm_num))
  · exact (recommendations_only_in_medium_band features_risky 50).2.2
      (by norm_num) (by norm_num)

/-! ## C9: the medium band always returns review -/

/-- C9: for every risk score in [30, 60) the recommendation is
"review" regardless of the features; the debt-to-income and buffer
checks of the medium branch have no effect because both branches
return "review". -/
theorem medium_band_recommendation_constant (s : ℚ) (f₁ f₂ : Features)
    (h₁ : 30 ≤ s) (h₂ : s < 60) :
    get_recommendation s f₁ = "review" ∧
      get_recommendation s f₂ = get_recommendation s f₁ := by
  have hn : ¬ s < 30 := by linarith
  constructor
  · simp only [get_recommendation, if_neg hn, if_pos h₂]
    split <;> rfl
  · simp only [get_recommendation, if_neg hn, if_pos h₂]
    split <;> split <;> rfl

/-- Witness for C9 at score 40 and two feature vectors that take the
two different branches of the inner check. -/
theorem medium_band_recommendation_constant_witness :
    get_recommendation 40 features_safe = "review" ∧
      get_recommendation 40 features_risky = "review" := by
  have h := medium_band_recommendation_constant 40 features_safe
    features_risky (by norm_num) (by norm_num)
  exact ⟨h.1, h.2.trans h.1⟩

end FinancialTwin
